import Mathlib

/-!
Formal model of the mosquitto multi-tenant plugin
(src/mosquitto_multi_tenant.c).

Strings are modelled as lists of characters (C strings hold no NUL byte).
The libc regex engine is external to the repository; the two places it is
used are modelled explicitly: an abstract `exec` function standing for
regexec on the compiled tenant pattern (returning the offsets of capture
group 1 on a match), and a concrete function for the fixed
shared-subscription pattern. Allocation is assumed to succeed; the
allocation-failure branches return early and are orthogonal to every claim
treated here.
-/

namespace MultiTenant

abbrev Str := List Char

/-- Return status of a callback: MOSQ_ERR_SUCCESS or MOSQ_ERR_NOMEM. -/
inductive Status
  | success
  | nomem
deriving DecidableEq

/-- The literal the source compares against with strncmp(..., "$share/", 7). -/
def shareLit : Str := ['$', 's', 'h', 'a', 'r', 'e', '/']

/-- Containment of the share marker anywhere in a string, used only to state
the side condition of the round-trip property: true iff some suffix of the
string starts with the marker. -/
def containsShareMarker : Str → Bool
  | [] => false
  | c :: rest => shareLit.isPrefixOf (c :: rest) || containsShareMarker rest

/-- get_team (src lines 59-74): run regexec on the compiled tenant pattern
(modelled by exec, which returns the offsets rm_so, rm_eo of capture group 1
on a match) and return the captured substring as a fresh string, or none when
the pattern does not match. -/
def get_team (exec : Str → Option (Nat × Nat)) (u : Str) : Option Str :=
  match exec u with
  | some (so, eo) => some ((u.drop so).take (eo - so))
  | none => none

/-- Character class [a-z0-9] of the default tenant pattern. -/
def isLowerAlnum (c : Char) : Bool :=
  ('a' ≤ c && c ≤ 'z') || ('0' ≤ c && c ≤ '9')

/-- Modelled regexec for the default tenant pattern from src line 385,
the extended regular expression hat-lbracket a-z0-9 rbracket-plus at-sign
group(lbracket a-z0-9 rbracket-plus) dollar: the whole username must be a
nonempty run of lowercase alphanumerics, one at-sign, and a nonempty run of
lowercase alphanumerics; capture group 1 spans everything after the at-sign.
The at-sign is outside the character class, so the split point is forced and
the match is unambiguous. -/
def exec_default (u : Str) : Option (Nat × Nat) :=
  let a := u.takeWhile (fun c => c != '@')
  match u.dropWhile (fun c => c != '@') with
  | '@' :: b =>
      if !a.isEmpty && a.all isLowerAlnum && !b.isEmpty && b.all isLowerAlnum then
        some (a.length + 1, u.length)
      else none
  | _ => none

/-- Modelled regexec for the tenant pattern hat-group(a-star): an anchored
star of the letter a, whose single capture group matches the (possibly empty)
maximal leading run of a characters of any username, per POSIX
leftmost-longest matching. A legal configuration value with exactly one
capture group. -/
def exec_astar (u : Str) : Option (Nat × Nat) :=
  some (0, (u.takeWhile (fun c => c == 'a')).length)

/-- callback_message_in core (src lines 139-162): prepend team and a slash
to the topic, snprintf format %s/%s. -/
def prepend_team (team topic : Str) : Str := team ++ '/' :: topic

/-- callback_message_out core (src lines 184-211): if the topic is not long
enough to contain team plus slash, leave it; if the first strlen(team) bytes
equal team and the next byte is a slash, drop them; otherwise leave the
topic unchanged. -/
def strip_team (team topic : Str) : Str :=
  if topic.length ≤ team.length + 1 then topic
  else if team.isPrefixOf topic && (topic[team.length]? == some '/') then
    topic.drop (team.length + 1)
  else topic

/-- Modelled regexec for the fixed shared-subscription pattern compiled at
src line 388, hat-group(dollar share slash lbracket hat-slash rbracket-plus)
slash group(dot-plus) dollar: capture 1 is the share marker followed by the
maximal nonempty run of non-slash characters, then a literal slash, then
capture 2, any nonempty remainder. The class excludes the slash, so the
group boundary is forced at the first slash after the marker and the match
is unambiguous. -/
def shared_sub_exec (filter : Str) : Option (Str × Str) :=
  if shareLit.isPrefixOf filter then
    let rest := filter.drop 7
    match rest.takeWhile (fun c => c != '/'), rest.dropWhile (fun c => c != '/') with
    | g@(_ :: _), '/' :: inner =>
        if inner.isEmpty then none else some (shareLit ++ g, inner)
    | _, _ => none
  else none

/-- callback_subscribe rewrite (src lines 237-279): on a filter whose first
seven bytes are the share marker, split it with the shared-subscription
regex and rebuild as group slash team slash inner, snprintf format %s/%s/%s,
returning MOSQ_ERR_NOMEM (with the filter left in place) when the regex
does not match; on any other filter, prepend team and a slash. -/
def subscribe_rewrite (team filter : Str) : Status × Str :=
  if shareLit.isPrefixOf filter then
    match shared_sub_exec filter with
    | some (grp, inner) => (.success, grp ++ '/' :: (team ++ '/' :: inner))
    | none => (.nomem, filter)
  else (.success, prepend_team team filter)

/-- callback_unsubscribe rewrite (src lines 312-355): on a filter whose
first seven bytes are the share marker, split it with the
shared-subscription regex and rebuild as group slash team slash inner,
snprintf format %s/%s/%s, returning MOSQ_ERR_NOMEM (with the filter left in
place) when the regex does not match; on any other filter, prepend team and
a slash. -/
def unsubscribe_rewrite (team filter : Str) : Status × Str :=
  if shareLit.isPrefixOf filter then
    match shared_sub_exec filter with
    | some (grp, inner) => (.success, grp ++ '/' :: (team ++ '/' :: inner))
    | none => (.nomem, filter)
  else (.success, prepend_team team filter)

/-- connect_callback (src lines 76-116): absent username or unresolved team
leave the client id untouched; a resolved team rewrites it to id at-sign
team, snprintf format %s@%s. -/
def callback_connect (exec : Str → Option (Nat × Nat))
    (username : Option Str) (clientid : Str) : Status × Str :=
  match username with
  | none => (.success, clientid)
  | some u =>
      match get_team exec u with
      | none => (.success, clientid)
      | some team => (.success, clientid ++ '@' :: team)

/-- callback_message_in (src lines 119-163): absent username or unresolved
team leave the topic untouched; a resolved team is prepended. -/
def callback_message_in (exec : Str → Option (Nat × Nat))
    (username : Option Str) (topic : Str) : Status × Str :=
  match username with
  | none => (.success, topic)
  | some u =>
      match get_team exec u with
      | none => (.success, topic)
      | some team => (.success, prepend_team team topic)

/-- callback_message_out (src lines 165-214): absent username or unresolved
team leave the topic untouched; a resolved team is conditionally stripped. -/
def callback_message_out (exec : Str → Option (Nat × Nat))
    (username : Option Str) (topic : Str) : Status × Str :=
  match username with
  | none => (.success, topic)
  | some u =>
      match get_team exec u with
      | none => (.success, topic)
      | some team => (.success, strip_team team topic)

/-- callback_subscribe (src lines 216-288): absent username or unresolved
team leave the filter untouched and succeed; otherwise apply the subscribe
rewrite. -/
def callback_subscribe (exec : Str → Option (Nat × Nat))
    (username : Option Str) (filter : Str) : Status × Str :=
  match username with
  | none => (.success, filter)
  | some u =>
      match get_team exec u with
      | none => (.success, filter)
      | some team => subscribe_rewrite team filter

/-- callback_unsubscribe (src lines 290-364): absent username or unresolved
team leave the filter untouched and succeed; otherwise apply the unsubscribe
rewrite. -/
def callback_unsubscribe (exec : Str → Option (Nat × Nat))
    (username : Option Str) (filter : Str) : Status × Str :=
  match username with
  | none => (.success, filter)
  | some u =>
      match get_team exec u with
      | none => (.success, filter)
      | some team => unsubscribe_rewrite team filter

/-- The five broker events the plugin registers callbacks for. -/
inductive Event
  | connect
  | message_in
  | message_out
  | subscribe
  | unsubscribe
deriving DecidableEq

/-- The source text of the default tenant pattern (src line 385). -/
def default_pattern_src : Str := "^[a-z0-9]+@([a-z0-9]+)$".data

/-- The source text of the shared-subscription pattern (src line 388). -/
def shared_pattern_src : Str := "^(\\$share/[^/]+)/(.+)$".data

/-- strcasecmp key match against the option key regex (src line 377). -/
def keyIsRegex (k : Str) : Bool := k.map Char.toLower == "regex".data

/-- mosquitto_plugin_init (src lines 367-401). compiles is the verdict of
libc regcomp on a pattern source (true when it compiles). The source calls
regcomp at lines 378, 385 and 388 and discards its return value each time;
the model computes the same discarded verdicts and then, exactly as the
source does, registers all five callbacks and returns success no matter
what the verdicts were. -/
def mosquitto_plugin_init (compiles : Str → Bool)
    (opts : List (Str × Str)) : Status × List Event :=
  let found := opts.any (fun o => keyIsRegex o.1)
  let _discarded := opts.filterMap
    (fun o => if keyIsRegex o.1 then some (compiles o.2) else none)
  let _discardedDefault := if found then true else compiles default_pattern_src
  let _discardedShared := compiles shared_pattern_src
  (.success, [Event.connect, .message_in, .message_out, .subscribe, .unsubscribe])

/-! Helper lemmas shared by the claim theorems. -/

theorem leading_isPrefixOf (l r : Str) : l.isPrefixOf (l ++ r) = true := by
  induction l with
  | nil => simp [List.isPrefixOf]
  | cons a t ih => simp [List.isPrefixOf, ih]

theorem getElem_append_mid (l r : Str) (a : Char) : (l ++ a :: r)[l.length]? = some a := by
  rw [List.getElem?_append_right (Nat.le_refl _)]
  simp

theorem drop_append_mid (l r : Str) (a : Char) : (l ++ a :: r).drop (l.length + 1) = r := by
  have h1 : l ++ a :: r = (l ++ [a]) ++ r := by simp
  have h2 : l.length + 1 = (l ++ [a]).length := by simp
  rw [h1, h2, List.drop_left]

/-- If the byte test of callback_message_out succeeds, the topic literally
splits as team, slash, remainder. -/
theorem cond_split (team p : Str)
    (h : (team.isPrefixOf p && (p[team.length]? == some '/')) = true) :
    p = team ++ '/' :: p.drop (team.length + 1) := by
  induction team generalizing p with
  | nil =>
      cases p with
      | nil => simp at h
      | cons c cs =>
          simp at h
          simp [h]
  | cons a t ih =>
      cases p with
      | nil => simp [List.isPrefixOf] at h
      | cons b bs =>
          simp [List.isPrefixOf] at h
          obtain ⟨⟨hab, hpre⟩, hget⟩ := h
          have hbs := ih bs (by simp [hpre, hget])
          simp [hab, List.drop]
          exact hbs

/-- strip_team removes the team and the slash whenever a nonempty remainder
follows them. -/
theorem strip_team_of_split (team rest : Str) (hr : rest ≠ []) :
    strip_team team (team ++ '/' :: rest) = rest := by
  have hrl : 0 < rest.length := List.length_pos.mpr hr
  have h1 : ¬ ((team ++ '/' :: rest).length ≤ team.length + 1) := by
    rw [List.length_append, List.length_cons]
    omega
  have hp : team.isPrefixOf (team ++ '/' :: rest) = true := leading_isPrefixOf team _
  have hg : (team ++ '/' :: rest)[team.length]? = some '/' := getElem_append_mid team rest '/'
  unfold strip_team
  rw [if_neg h1, if_pos (by rw [hp, hg]; rfl)]
  exact drop_append_mid team rest '/'

/-- strip_team passes every short topic through unchanged. -/
theorem strip_team_short (team p : Str) (h : p.length ≤ team.length + 1) :
    strip_team team p = p := by
  unfold strip_team
  rw [if_pos h]

/-- strip_team passes a topic through unchanged when it does not split as
team, slash, remainder. -/
theorem strip_team_of_no_split (team p : Str) (h : ∀ rest : Str, p ≠ team ++ '/' :: rest) :
    strip_team team p = p := by
  unfold strip_team
  by_cases h1 : p.length ≤ team.length + 1
  · rw [if_pos h1]
  · rw [if_neg h1]
    by_cases h2 : (team.isPrefixOf p && (p[team.length]? == some '/')) = true
    · exact absurd (cond_split team p h2) (h _)
    · rw [if_neg h2]

theorem takeWhile_no_slash (g r : Str) (hg : '/' ∉ g) :
    (g ++ '/' :: r).takeWhile (fun c => c != '/') = g := by
  induction g with
  | nil => simp
  | cons a t ih =>
      have ha : a ≠ '/' := fun hc => hg (by simp [hc])
      simp [List.takeWhile_cons, ha, ih (fun hm => hg (List.mem_cons_of_mem a hm))]

theorem dropWhile_no_slash (g r : Str) (hg : '/' ∉ g) :
    (g ++ '/' :: r).dropWhile (fun c => c != '/') = '/' :: r := by
  induction g with
  | nil => simp
  | cons a t ih =>
      have ha : a ≠ '/' := fun hc => hg (by simp [hc])
      simp [List.dropWhile_cons, ha, ih (fun hm => hg (List.mem_cons_of_mem a hm))]

/-- The shared-subscription regex splits a well-formed shared filter at the
first slash after the marker. -/
theorem shared_sub_exec_split (g f : Str) (hg : g ≠ []) (hgs : '/' ∉ g) (hf : f ≠ []) :
    shared_sub_exec (shareLit ++ (g ++ '/' :: f)) = some (shareLit ++ g, f) := by
  have hpre : shareLit.isPrefixOf (shareLit ++ (g ++ '/' :: f)) = true :=
    leading_isPrefixOf _ _
  have hdrop : (shareLit ++ (g ++ '/' :: f)).drop 7 = g ++ '/' :: f := by
    have h7 : (7 : Nat) = shareLit.length := rfl
    rw [h7, List.drop_left]
  simp only [shared_sub_exec, hpre, if_true, hdrop,
    takeWhile_no_slash g f hgs, dropWhile_no_slash g f hgs]
  cases g with
  | nil => exact absurd rfl hg
  | cons a t =>
      cases f with
      | nil => exact absurd rfl hf
      | cons x xs => rfl

/-- A match of the default tenant pattern decomposes the username at the
at-sign, with a nonempty right part captured by group 1. -/
theorem exec_default_split (u : Str) (so eo : Nat) (h : exec_default u = some (so, eo)) :
    ∃ a b : Str, u = a ++ '@' :: b ∧ b ≠ [] ∧ so = a.length + 1 ∧ eo = u.length := by
  simp only [exec_default] at h
  split at h
  next b heq =>
    split at h
    next hcond =>
      simp only [Option.some.injEq, Prod.mk.injEq] at h
      obtain ⟨hso, heo⟩ := h
      refine ⟨u.takeWhile (fun c => c != '@'), b, ?_, ?_, hso.symm, heo.symm⟩
      · conv_lhs => rw [← List.takeWhile_append_dropWhile (fun c => c != '@') u]
        rw [heq]
      · simp only [Bool.and_eq_true] at hcond
        have h3 := hcond.1.2
        cases b with
        | nil => simp at h3
        | cons x xs => simp
    next => simp at h
  next => simp at h

/-! The claims. -/

/-- C1 counterexample: the round-trip fails at the empty topic. With team
bar, the message-in rule outputs the five bytes bar slash, and the
message-out rule returns them unchanged because their length is not greater
than the team length plus one, so the round trip ends at bar slash instead
of the original empty topic, even though the empty topic does not contain
the share marker. -/
theorem roundtrip_empty_topic_cex :
    containsShareMarker ([] : Str) = false ∧
    strip_team "bar".data (prepend_team "bar".data []) = "bar/".data ∧
    "bar/".data ≠ ([] : Str) := by decide

/-- C1 (amended: the topic must be nonempty): for every team T and every
nonempty topic P not containing the share marker, applying the message-in
rule and then the message-out rule to the result yields exactly P. -/
theorem roundtrip_nonempty_topic (team p : Str)
    (hshare : containsShareMarker p = false) (hp : p ≠ []) :
    strip_team team (prepend_team team p) = p :=
  strip_team_of_split team p hp

/-- Witness for C1 at team bar, topic x. -/
theorem roundtrip_nonempty_topic_witness :
    strip_team "bar".data (prepend_team "bar".data "x".data) = "x".data :=
  roundtrip_nonempty_topic "bar".data "x".data (by decide) (by decide)

/-- C2 counterexample: the topic consisting of exactly team bar and a slash
does start with team plus slash, so the claim says the prefix is removed,
leaving the empty topic; the code instead returns it unchanged because its
length is not greater than the team length plus one. -/
theorem strip_exact_boundary_cex :
    "bar/".data = "bar".data ++ '/' :: ([] : Str) ∧
    strip_team "bar".data "bar/".data = "bar/".data ∧
    "bar/".data ≠ ([] : Str) := by decide

/-- C2 (amended: stripping also requires a nonempty remainder): the
message-out rule strips the prefix iff the topic is team, slash, nonempty
remainder; a topic that does not split that way, including the topic equal
to team plus slash alone, is returned unchanged. -/
theorem strip_conditional (team p : Str) :
    (∀ rest : Str, p = team ++ '/' :: rest → rest ≠ [] → strip_team team p = rest)
  ∧ ((∀ rest : Str, p ≠ team ++ '/' :: rest) → strip_team team p = p)
  ∧ (p = team ++ '/' :: ([] : Str) → strip_team team p = p) := by
  refine ⟨?_, ?_, ?_⟩
  · intro rest hrest hne
    subst hrest
    exact strip_team_of_split team rest hne
  · intro h
    exact strip_team_of_no_split team p h
  · intro hp
    subst hp
    apply strip_team_short
    simp

/-- Witness for C2 at team bar with topics bar/x and bar/. -/
theorem strip_conditional_witness :
    strip_team "bar".data "bar/x".data = "x".data ∧
    strip_team "bar".data "bar/".data = "bar/".data :=
  ⟨(strip_conditional "bar".data "bar/x".data).1 "x".data (by decide) (by decide),
   (strip_conditional "bar".data "bar/".data).2.2 (by decide)⟩

/-- C3: for every resolved team, every share group (a nonempty segment
without a slash) and every nonempty inner filter, the subscribe rewrite of
share-marker group slash filter inserts the team between the group segment
and the inner filter and succeeds. -/
theorem subscribe_share_insertion (team g f : Str)
    (hg : g ≠ []) (hgs : '/' ∉ g) (hf : f ≠ []) :
    subscribe_rewrite team (shareLit ++ (g ++ '/' :: f))
      = (.success, shareLit ++ (g ++ '/' :: (team ++ '/' :: f))) := by
  unfold subscribe_rewrite
  rw [if_pos (leading_isPrefixOf _ _), shared_sub_exec_split g f hg hgs hf]
  simp [List.append_assoc]

/-- Witness for C3: team acme subscribing to the group g1 with inner filter
a/b/c is rewritten to share-marker g1 slash acme slash a/b/c. -/
theorem subscribe_share_insertion_witness :
    subscribe_rewrite "acme".data (shareLit ++ ("g1".data ++ '/' :: "a/b/c".data))
      = (.success, shareLit ++ ("g1".data ++ '/' :: ("acme".data ++ '/' :: "a/b/c".data))) :=
  subscribe_share_insertion "acme".data "g1".data "a/b/c".data
    (by decide) (by decide) (by decide)

/-- C4: a filter that begins with the share marker but is rejected by the
shared-subscription regex makes both subscribe and unsubscribe return
MOSQ_ERR_NOMEM with the filter left unrewritten. -/
theorem malformed_share_fails (team f : Str)
    (hpre : shareLit.isPrefixOf f = true) (hmatch : shared_sub_exec f = none) :
    subscribe_rewrite team f = (.nomem, f) ∧ unsubscribe_rewrite team f = (.nomem, f) := by
  constructor
  · unfold subscribe_rewrite
    rw [if_pos hpre, hmatch]
  · unfold unsubscribe_rewrite
    rw [if_pos hpre, hmatch]

/-- Witness for C4 at the malformed filter share-marker onlygroup. -/
theorem malformed_share_fails_witness :
    subscribe_rewrite "acme".data "$share/onlygroup".data
      = (.nomem, "$share/onlygroup".data) ∧
    unsubscribe_rewrite "acme".data "$share/onlygroup".data
      = (.nomem, "$share/onlygroup".data) :=
  malformed_share_fails "acme".data "$share/onlygroup".data (by decide) (by decide)

/-- C5 divergence theorem: even when the configured tenant pattern fails to
compile, mosquitto_plugin_init still registers all five event callbacks and
returns success, because the source discards the return value of regcomp;
the claimed CompileError abort does not exist in the code. -/
theorem init_ignores_compile_failure (compiles : Str → Bool) (pat : Str)
    (h : compiles pat = false) :
    mosquitto_plugin_init compiles [("regex".data, pat)]
      = (.success, [Event.connect, .message_in, .message_out, .subscribe, .unsubscribe]) :=
  rfl

/-- Witness for C5 with a compiler that rejects every pattern and the
malformed pattern consisting of a lone opening parenthesis. -/
theorem init_ignores_compile_failure_witness :
    mosquitto_plugin_init (fun _ => false) [("regex".data, "(".data)]
      = (.success, [Event.connect, .message_in, .message_out, .subscribe, .unsubscribe]) :=
  init_ignores_compile_failure (fun _ => false) "(".data rfl

/-- C6: for every event kind and every input string, an absent username or
an unresolved team makes the callback return its input unchanged with
success. -/
theorem no_team_passthrough (exec : Str → Option (Nat × Nat))
    (username : Option Str) (s : Str)
    (h : username = none ∨ ∃ u : Str, username = some u ∧ get_team exec u = none) :
    callback_connect exec username s = (.success, s)
  ∧ callback_message_in exec username s = (.success, s)
  ∧ callback_message_out exec username s = (.success, s)
  ∧ callback_subscribe exec username s = (.success, s)
  ∧ callback_unsubscribe exec username s = (.success, s) := by
  rcases h with h | ⟨u, hu, ht⟩
  · subst h
    exact ⟨rfl, rfl, rfl, rfl, rfl⟩
  · subst hu
    refine ⟨?_, ?_, ?_, ?_, ?_⟩ <;>
      simp [callback_connect, callback_message_in, callback_message_out,
        callback_subscribe, callback_unsubscribe, ht]

/-- Witness for C6 with a non-matching resolver. -/
theorem no_team_passthrough_witness :
    callback_message_in (fun _ => none) (some "u".data) "t".data = (.success, "t".data) :=
  (no_team_passthrough (fun _ => none) (some "u".data) "t".data
    (Or.inr ⟨"u".data, rfl, rfl⟩)).2.1

/-- C7: with the default tenant pattern, the username foo at-sign bar
resolves to team bar and the username no-at-sign resolves to none. -/
theorem default_extraction :
    get_team exec_default "foo@bar".data = some "bar".data ∧
    get_team exec_default "no-at-sign".data = none := by decide

/-- C8: the unsubscribe rewrite is identical to the subscribe rewrite, both
as the pure per-team transformation and as the full callback, for every
team, resolver, username and filter: equal output strings and statuses. -/
theorem unsubscribe_matches_subscribe :
    (∀ team f : Str, unsubscribe_rewrite team f = subscribe_rewrite team f)
  ∧ (∀ (exec : Str → Option (Nat × Nat)) (username : Option Str) (f : Str),
      callback_unsubscribe exec username f = callback_subscribe exec username f) :=
  ⟨fun _ _ => rfl, fun _ _ _ => rfl⟩

/-- C9 counterexample: the tenant pattern anchored group of a-star is a
compiled pattern with exactly one capture group, the username b matches it,
and get_team returns the empty team token. -/
theorem team_capture_empty_cex :
    get_team exec_astar "b".data = some ([] : Str) ∧ ([] : Str).length = 0 := by
  decide

/-- C9 (amended: restricted to the default tenant pattern, whose capture
group is a plus of a character class and so cannot match the empty string):
every resolved team is nonempty. -/
theorem default_team_nonempty (u t : Str) (h : get_team exec_default u = some t) :
    t ≠ [] := by
  unfold get_team at h
  cases hx : exec_default u with
  | none => rw [hx] at h; simp at h
  | some pr =>
      obtain ⟨so, eo⟩ := pr
      rw [hx] at h
      simp only [Option.some.injEq] at h
      obtain ⟨a, b, hu, hb, hso, heo⟩ := exec_default_split u so eo hx
      subst hso heo
      subst h
      subst hu
      rw [drop_append_mid]
      have hlen : (a ++ '@' :: b).length = a.length + 1 + b.length := by
        rw [List.length_append, List.length_cons]; omega
      rw [hlen]
      have h2 : a.length + 1 + b.length - (a.length + 1) = b.length := by omega
      rw [h2, List.take_length]
      exact hb

/-- Witness for C9 at username foo at-sign bar. -/
theorem default_team_nonempty_witness : "bar".data ≠ ([] : Str) :=
  default_team_nonempty "foo@bar".data "bar".data (by decide)

/-- C10: the message-out rule leaves every topic of length at most the team
length plus one unchanged; in particular the topic equal to team plus slash
passes through rather than being stripped to the empty topic, and the rule
never turns a nonempty topic into an empty one. -/
theorem strip_short_passthrough :
    (∀ team p : Str, p.length ≤ team.length + 1 → strip_team team p = p)
  ∧ (∀ team : Str, strip_team team (team ++ ['/']) = team ++ ['/'])
  ∧ (∀ team p : Str, p ≠ [] → strip_team team p ≠ []) := by
  refine ⟨strip_team_short, ?_, ?_⟩
  · intro team
    apply strip_team_short
    simp
  · intro team p hp
    unfold strip_team
    by_cases h1 : p.length ≤ team.length + 1
    · rw [if_pos h1]; exact hp
    · rw [if_neg h1]
      by_cases h2 : (team.isPrefixOf p && (p[team.length]? == some '/')) = true
      · rw [if_pos h2]
        intro hnil
        have hdl := congrArg List.length hnil
        rw [List.length_drop] at hdl
        simp at hdl
        omega
      · rw [if_neg h2]; exact hp

/-- Witness for C10 at team bar with the short topic ba and the topic x. -/
theorem strip_short_passthrough_witness :
    strip_team "bar".data "ba".data = "ba".data ∧
    strip_team "bar".data "x".data ≠ ([] : Str) :=
  ⟨strip_short_passthrough.1 "bar".data "ba".data (by decide),
   strip_short_passthrough.2.2 "bar".data "x".data (by decide)⟩

end MultiTenant
